import Mathlib

/-!
Verification of the libgqlite3 property-graph query layer (`gql.hpp`).

We shallowly embed the parts of the program the specification talks
about: the content codec (`hex_encode` / `hex_decode`), the relational
store backing the graph (the `nodes` and `edges` tables), the compiled
query expressions built by the `Vertices` / `Edges` combinators
together with their generated SQL text and their denotation as id
sets, the bounce mechanism in the two Selection constructors, the
erase operations, the recursive traversal queries, the `Result` type
with `merge_rows`, and the cross-session checks.

Bytes are modelled as `Fin 256` (the value of a C++ `char` viewed as
an unsigned byte), byte strings as `List (Fin 256)`, and SQL text as
`String` / `List Char`.  Fatal errors (`throw`, failed `.at` lookups,
failed `assert`) are modelled with `Option`, where `none` is a fatal
error.
-/

namespace GQLSpec

/-- A byte, i.e. one `char` cell of a C++ `std::string`. -/
abbrev Byte := Fin 256

/-- The lookup table `to_hex = "0123456789ABCDEF"` from `hex_encode`. -/
def hexDigits : List Char :=
  ['0', '1', '2', '3', '4', '5', '6', '7', '8', '9', 'A', 'B', 'C', 'D', 'E', 'F']

/-- `to_hex.at(n)` for a nibble `n`; the index is always in range. -/
def hexDigit (n : Fin 16) : Char := hexDigits.getD n.val 'X'

/-- `hex_encode` from gql.hpp: each byte `c` contributes
`to_hex.at((c >> 4) & 0b1111)` then `to_hex.at(c & 0b1111)`; for an
8-bit `char` holding byte value `b` these are `b / 16` and `b % 16`. -/
def hex_encode : List Byte → List Char
  | [] => []
  | b :: rest =>
    hexDigit ⟨b.val / 16, by omega⟩ ::
      hexDigit ⟨b.val % 16, by omega⟩ :: hex_encode rest

/-- The `char_to_hex` map of `hex_decode`, as its initializer list of
key-value pairs. -/
def char_to_hex : List (Char × Fin 16) :=
  [('0', 0), ('1', 1), ('2', 2), ('3', 3),
    ('4', 4), ('5', 5), ('6', 6), ('7', 7),
    ('8', 8), ('9', 9), ('A', 10), ('B', 11),
    ('C', 12), ('D', 13), ('E', 14), ('F', 15)]

/-- `char_to_hex.at(c)`: the mapped nibble, where `.at` on a missing
key throws, modelled by `none`. -/
def charToHex (c : Char) : Option (Fin 16) :=
  (char_to_hex.find? fun p => p.1 == c).map Prod.snd

/-- The decoding loop of `hex_decode`: two characters at a time,
`(first << 4) | second`; a trailing single character makes
`_what.at(i + 1)` throw (out of range), and a non-hex character makes
`char_to_hex.at` throw. -/
def hexPairs : List Char → Option (List Byte)
  | [] => some []
  | [_] => none
  | a :: b :: rest =>
    match charToHex a, charToHex b with
    | some x, some y =>
      match hexPairs rest with
      | some r =>
        some (⟨x.val * 16 + y.val, by
          have hx := x.isLt
          have hy := y.isLt
          omega⟩ :: r)
      | none => none
    | _, _ => none

/-- The characters of the literal `"NULL"`. -/
def nullChars : List Char := ['N', 'U', 'L', 'L']

/-- The byte values of the string `"NULL"` which `hex_decode` returns
unchanged on that input. -/
def nullBytes : List Byte :=
  [⟨78, by omega⟩, ⟨85, by omega⟩, ⟨76, by omega⟩, ⟨76, by omega⟩]

/-- `hex_decode` from gql.hpp: the input `"NULL"` is returned as-is;
otherwise the pairwise nibble decoding runs, throwing on malformed
input. -/
def hex_decode (l : List Char) : Option (List Byte) :=
  if l = nullChars then some nullBytes else hexPairs l

theorem charToHex_hexDigit : ∀ d : Fin 16, charToHex (hexDigit d) = some d := by
  decide

theorem hexDigit_mem : ∀ d : Fin 16, hexDigit d ∈ hexDigits := by
  decide

theorem hexDigit_ne_upperN : ∀ d : Fin 16, hexDigit d ≠ 'N' := by
  decide

theorem hex_encode_length (s : List Byte) :
    (hex_encode s).length = 2 * s.length := by
  induction s with
  | nil => rfl
  | cons b rest ih => simp [hex_encode, ih]; omega

theorem hex_encode_ne_null (s : List Byte) : hex_encode s ≠ nullChars := by
  cases s with
  | nil => simp [hex_encode, nullChars]
  | cons b rest =>
    intro h
    have : hexDigit ⟨b.val / 16, by omega⟩ = 'N' := by
      have := congrArg (fun l => l.headI) h
      simpa [hex_encode, nullChars] using this
    exact hexDigit_ne_upperN _ this

theorem hexPairs_hex_encode (s : List Byte) :
    hexPairs (hex_encode s) = some s := by
  induction s with
  | nil => rfl
  | cons b rest ih =>
    simp only [hex_encode, hexPairs, charToHex_hexDigit, ih]
    congr 1
    congr 1
    apply Fin.ext
    simp
    omega

theorem hexDigit_charToHex (c : Char) (d : Fin 16) (h : charToHex c = some d) :
    hexDigit d = c := by
  unfold charToHex at h
  cases hf : char_to_hex.find? fun p => p.1 == c with
  | none => rw [hf] at h; simp at h
  | some pr =>
    rw [hf] at h
    simp only [Option.map_some', Option.some.injEq] at h
    have hpc : pr.1 = c := by simpa using List.find?_some hf
    have hmem : pr ∈ char_to_hex := List.mem_of_find?_eq_some hf
    subst h
    rw [← hpc]
    fin_cases hmem <;> rfl

theorem hexPairs_sound : ∀ (l : List Char) (bs : List Byte),
    hexPairs l = some bs → hex_encode bs = l
  | [], _, h => by
    simp only [hexPairs, Option.some.injEq] at h
    subst h
    rfl
  | [_], _, h => by simp [hexPairs] at h
  | a :: b :: rest, bs, h => by
    unfold hexPairs at h
    split at h
    next x y ha hb =>
      split at h
      next r hr =>
        have hrest := hexPairs_sound rest r hr
        have hx := x.isLt
        have hy := y.isLt
        rw [← Option.some_inj.mp h]
        show hex_encode (⟨x.val * 16 + y.val, _⟩ :: r) = _
        simp only [hex_encode, hrest]
        congr 1
        · rw [← hexDigit_charToHex a x ha]
          congr 1
          apply Fin.ext
          show (x.val * 16 + y.val) / 16 = x.val
          omega
        congr 1
        rw [← hexDigit_charToHex b y hb]
        congr 1
        apply Fin.ext
        show (x.val * 16 + y.val) % 16 = y.val
        omega
      next => exact absurd h (by simp)
    next => exact absurd h (by simp)

/-- Claim C2: for every byte string `s` (including the empty string,
all-zero strings, and strings over the full byte range), decoding the
encoding returns the original: `hex_decode (hex_encode s) = s`. -/
theorem C2_codec_round_trip : ∀ s : List Byte, hex_decode (hex_encode s) = some s := by
  intro s
  unfold hex_decode
  rw [if_neg (hex_encode_ne_null s)]
  exact hexPairs_hex_encode s

/-- Counterexample to claim C8: the text `"NULL"` is not in the image
of `hex_encode` (its characters are not hex digits), yet `hex_decode`
returns it unchanged instead of failing. -/
theorem C8_null_counterexample :
    (∀ s : List Byte, hex_encode s ≠ nullChars) ∧
      hex_decode nullChars = some nullBytes := by
  refine ⟨hex_encode_ne_null, ?_⟩
  unfold hex_decode
  rw [if_pos rfl]

/-- Claim C8 (amended): for every text `t` other than the exact
string `"NULL"` that is not in the image of the encoder, `hex_decode t`
fails fatally; the input `"NULL"` alone is returned unchanged. -/
theorem C8_decode_rejects_non_image :
    ∀ l : List Char, l ≠ nullChars → (∀ s : List Byte, hex_encode s ≠ l) →
      hex_decode l = none := by
  intro l hnull himg
  unfold hex_decode
  rw [if_neg hnull]
  cases h : hexPairs l with
  | none => rfl
  | some bs => exact absurd (hexPairs_sound l bs h) (himg bs)

/-- Witness for `C8_decode_rejects_non_image` at the concrete
non-image input `"G"`. -/
theorem C8_decode_rejects_non_image_witness :
    ((['G'] : List Char) ≠ nullChars ∧ ∀ s : List Byte, hex_encode s ≠ ['G']) ∧
      hex_decode ['G'] = none := by
  have himg : ∀ s : List Byte, hex_encode s ≠ (['G'] : List Char) := by
    intro s h
    have hl := congrArg List.length h
    rw [hex_encode_length] at hl
    simp at hl
  exact ⟨⟨by decide, himg⟩, C8_decode_rejects_non_image ['G'] (by decide) himg⟩

/-!
The relational store.  The schema created by the `GQL` constructor is
`nodes(id PRIMARY KEY, label TEXT DEFAULT '', tags TEXT DEFAULT '{}')`
and `edges(id PRIMARY KEY, source, target, label, tags)`.  Label and
tag cells hold already-hex-encoded text; the `tags` JSON blob is
modelled as an association list from encoded key to encoded value.
-/

/-- One row of the `nodes` table. -/
structure NodeRow where
  id : Nat
  label : String
  tags : List (String × String)
deriving DecidableEq

/-- One row of the `edges` table. -/
structure EdgeRow where
  id : Nat
  source : Nat
  target : Nat
  label : String
  tags : List (String × String)
deriving DecidableEq

/-- The backing store: the two tables. -/
structure Store where
  nodes : List NodeRow
  edges : List EdgeRow
deriving DecidableEq

/-- The set of ids present in the `nodes` table. -/
def nodeIds (st : Store) : Finset Nat := (st.nodes.map NodeRow.id).toFinset

/-- The set of ids present in the `edges` table. -/
def edgeIds (st : Store) : Finset Nat := (st.edges.map EdgeRow.id).toFinset

/-- `json_extract(tags, k)` on a tag blob: the value at key `k`. -/
def tagValue (tags : List (String × String)) (k : String) : Option String :=
  (tags.find? fun p => p.1 = k).map Prod.snd

/-- Does the node with id `i` carry stored label `lab`?  (Node ids are
unique by the `PRIMARY KEY(id)` constraint, so this picks the row.) -/
def nodeHasLabel (st : Store) (i : Nat) (lab : String) : Bool :=
  st.nodes.any fun n => n.id == i && n.label == lab

/-- Does the node with id `i` map tag key `k` to value `v`? -/
def nodeHasTag (st : Store) (i : Nat) (k v : String) : Bool :=
  st.nodes.any fun n => n.id == i && tagValue n.tags k == some v

/-- Does the edge with id `j` carry stored label `lab`? -/
def edgeHasLabel (st : Store) (j : Nat) (lab : String) : Bool :=
  st.edges.any fun e => e.id == j && e.label == lab

/-- Does the edge with id `j` map tag key `k` to value `v`? -/
def edgeHasTag (st : Store) (j : Nat) (k v : String) : Bool :=
  st.edges.any fun e => e.id == j && tagValue e.tags k == some v

/-- `COUNT(e.id) ... ON e.target = n.id`: the in-degree of vertex `i`. -/
def inDegreeOf (st : Store) (i : Nat) : Nat :=
  (st.edges.filter fun e => e.target == i).length

/-- `COUNT(e.id) ... ON e.source = n.id`: the out-degree of vertex `i`. -/
def outDegreeOf (st : Store) (i : Nat) : Nat :=
  (st.edges.filter fun e => e.source == i).length

/-!
Compiled query expressions.  A `Vertices` / `Edges` Selection carries
a SQL command string `cmd`; each combinator wraps the current text in
a fixed template.  We embed the command as an expression tree `VQuery`
/ `EQuery` whose constructors are exactly the templates occurring in
gql.hpp, with a function `textV` / `textE` producing the exact SQL
text and a function `denoteV` / `denoteE` giving the id set the
backend would return for it.  Label and tag parameters are the raw
caller-supplied byte strings; the templates splice their hex
encodings, as the combinators do.
-/

mutual
/-- Vertex query expressions: the command grammar generated by
`GQL::v`, `GQL::add_vertex` and the `Vertices` combinators. -/
inductive VQuery where
  | all : VQuery
  | whereId : Nat → VQuery
  | limit : VQuery → Nat → VQuery
  | withLabel : VQuery → List Byte → VQuery
  | withTag : VQuery → List Byte → List Byte → VQuery
  | withId : VQuery → Nat → VQuery
  | union : VQuery → VQuery → VQuery
  | inter : VQuery → VQuery → VQuery
  | nin : VQuery → VQuery → VQuery
  | withInDegree : VQuery → Nat → VQuery
  | withOutDegree : VQuery → Nat → VQuery
  | sourceOf : EQuery → VQuery
  | targetOf : EQuery → VQuery
  | idIn : List Nat → VQuery
deriving DecidableEq

/-- Edge query expressions: the command grammar generated by `GQL::e`,
`GQL::add_edge` and the `Edges` combinators. -/
inductive EQuery where
  | all : EQuery
  | whereId : Nat → EQuery
  | limit : EQuery → Nat → EQuery
  | withLabel : EQuery → List Byte → EQuery
  | withTag : EQuery → List Byte → List Byte → EQuery
  | withId : EQuery → Nat → EQuery
  | union : EQuery → EQuery → EQuery
  | inter : EQuery → EQuery → EQuery
  | nin : EQuery → EQuery → EQuery
  | withSource : EQuery → VQuery → EQuery
  | withTarget : EQuery → VQuery → EQuery
  | inOf : VQuery → EQuery
  | outOf : VQuery → EQuery
  | stPairs : VQuery → VQuery → EQuery
  | idIn : List Nat → EQuery
deriving DecidableEq
end

/-- The single-quote character, spliced into the SQL templates. -/
def squote : String := String.singleton (Char.ofNat 39)

/-- The id list of a bounced command: `"1,2,3"` for ids 1, 2, 3. -/
def idListText (ids : List Nat) : String :=
  String.intercalate "," (ids.map toString)

mutual
/-- The exact SQL text of a vertex command, template for template from
gql.hpp. -/
def textV : VQuery → String
  | .all => "SELECT * FROM nodes"
  | .whereId i => "SELECT * FROM nodes WHERE id = " ++ toString i
  | .limit q n => "SELECT * FROM (" ++ textV q ++ ") LIMIT " ++ toString n
  | .withLabel q lab =>
    "SELECT * FROM (" ++ textV q ++ ") WHERE label = " ++ squote ++
      String.mk (hex_encode lab) ++ squote
  | .withTag q k v =>
    "SELECT * FROM (" ++ textV q ++ ") WHERE json_extract(tags, " ++ squote ++
      "$." ++ String.mk (hex_encode k) ++ squote ++ ") = " ++ squote ++
      String.mk (hex_encode v) ++ squote
  | .withId q i => "SELECT * FROM (" ++ textV q ++ ") WHERE id = " ++ toString i
  | .union a b => textV a ++ " UNION " ++ textV b
  | .inter a b => textV a ++ " INTERSECT " ++ textV b
  | .nin a b =>
    "SELECT * FROM (" ++ textV a ++ ") WHERE id NOT IN (SELECT id FROM (" ++
      textV b ++ "))"
  | .withInDegree q n =>
    "WITH n AS (" ++ textV q ++ ") SELECT id, label, tags FROM (" ++
      "SELECT n.*, COUNT(e.id) AS c FROM n LEFT JOIN (SELECT * FROM edges) e " ++
      "ON e.target = n.id GROUP BY n.id) t WHERE t.c = " ++ toString n
  | .withOutDegree q n =>
    "WITH n AS (" ++ textV q ++ ") SELECT id, label, tags FROM (" ++
      "SELECT n.*, COUNT(e.id) AS c FROM n LEFT JOIN (SELECT * FROM edges) e " ++
      "ON e.source = n.id GROUP BY n.id) t WHERE t.c = " ++ toString n
  | .sourceOf e =>
    "SELECT * FROM nodes WHERE id IN (SELECT source AS id FROM (" ++ textE e ++ "))"
  | .targetOf e =>
    "SELECT * FROM nodes WHERE id IN (SELECT target AS id FROM (" ++ textE e ++ "))"
  | .idIn ids => "SELECT * FROM nodes WHERE id IN (" ++ idListText ids ++ ")"

/-- The exact SQL text of an edge command. -/
def textE : EQuery → String
  | .all => "SELECT * FROM edges"
  | .whereId i => "SELECT * FROM edges WHERE id = " ++ toString i
  | .limit q n => "SELECT * FROM (" ++ textE q ++ ") LIMIT " ++ toString n
  | .withLabel q lab =>
    "SELECT * FROM (" ++ textE q ++ ") WHERE label = " ++ squote ++
      String.mk (hex_encode lab) ++ squote
  | .withTag q k v =>
    "SELECT * FROM (" ++ textE q ++ ") WHERE json_extract(tags, " ++ squote ++
      "$." ++ String.mk (hex_encode k) ++ squote ++ ") = " ++ squote ++
      String.mk (hex_encode v) ++ squote
  | .withId q i => "SELECT * FROM (" ++ textE q ++ ") WHERE id = " ++ toString i
  | .union a b => textE a ++ " UNION " ++ textE b
  | .inter a b => textE a ++ " INTERSECT " ++ textE b
  | .nin a b =>
    "SELECT * FROM (" ++ textE a ++ ") WHERE id NOT IN (SELECT id FROM (" ++
      textE b ++ "))"
  | .withSource q v =>
    "SELECT * FROM (" ++ textE q ++ ") WHERE source IN (SELECT id FROM (" ++
      textV v ++ "))"
  | .withTarget q v =>
    "SELECT * FROM (" ++ textE q ++ ") WHERE target IN (SELECT id FROM (" ++
      textV v ++ "))"
  | .inOf v =>
    "SELECT * FROM edges WHERE target IN (SELECT id FROM (" ++ textV v ++ "))"
  | .outOf v =>
    "SELECT * FROM edges WHERE source IN (SELECT id FROM (" ++ textV v ++ "))"
  | .stPairs l r =>
    "SELECT * FROM edges WHERE (source, target) IN (SELECT l.id, r.id FROM (" ++
      textV l ++ ") l CROSS JOIN (" ++ textV r ++ ") r)"
  | .idIn ids => "SELECT * FROM edges WHERE id IN (" ++ idListText ids ++ ")"
end

/-- `LIMIT n` applied to a subquery scanned in ascending id order (the
order SQLite yields for these id-keyed tables). -/
def sortTake (s : Finset Nat) (n : Nat) : Finset Nat :=
  ((s.sort (· ≤ ·)).take n).toFinset

/-- The sources of the edges whose id lies in `s`. -/
def edgeSources (st : Store) (s : Finset Nat) : Finset Nat :=
  ((st.edges.filter fun e => decide (e.id ∈ s)).map EdgeRow.source).toFinset

/-- The targets of the edges whose id lies in `s`. -/
def edgeTargets (st : Store) (s : Finset Nat) : Finset Nat :=
  ((st.edges.filter fun e => decide (e.id ∈ s)).map EdgeRow.target).toFinset

mutual
/-- The id set a vertex command denotes over store `st`. -/
def denoteV (st : Store) : VQuery → Finset Nat
  | .all => nodeIds st
  | .whereId i => (nodeIds st).filter fun x => x = i
  | .limit q n => sortTake (denoteV st q) n
  | .withLabel q lab =>
    (denoteV st q).filter fun i => nodeHasLabel st i (String.mk (hex_encode lab))
  | .withTag q k v =>
    (denoteV st q).filter fun i =>
      nodeHasTag st i (String.mk (hex_encode k)) (String.mk (hex_encode v))
  | .withId q i => (denoteV st q).filter fun x => x = i
  | .union a b => denoteV st a ∪ denoteV st b
  | .inter a b => denoteV st a ∩ denoteV st b
  | .nin a b => denoteV st a \ denoteV st b
  | .withInDegree q n => (denoteV st q).filter fun i => inDegreeOf st i = n
  | .withOutDegree q n => (denoteV st q).filter fun i => outDegreeOf st i = n
  | .sourceOf e => nodeIds st ∩ edgeSources st (denoteE st e)
  | .targetOf e => nodeIds st ∩ edgeTargets st (denoteE st e)
  | .idIn ids => nodeIds st ∩ ids.toFinset

/-- The id set an edge command denotes over store `st`. -/
def denoteE (st : Store) : EQuery → Finset Nat
  | .all => edgeIds st
  | .whereId i => (edgeIds st).filter fun x => x = i
  | .limit q n => sortTake (denoteE st q) n
  | .withLabel q lab =>
    (denoteE st q).filter fun j => edgeHasLabel st j (String.mk (hex_encode lab))
  | .withTag q k v =>
    (denoteE st q).filter fun j =>
      edgeHasTag st j (String.mk (hex_encode k)) (String.mk (hex_encode v))
  | .withId q i => (denoteE st q).filter fun x => x = i
  | .union a b => denoteE st a ∪ denoteE st b
  | .inter a b => denoteE st a ∩ denoteE st b
  | .nin a b => denoteE st a \ denoteE st b
  | .withSource q v =>
    (denoteE st q).filter fun j =>
      st.edges.any fun e => e.id == j && decide (e.source ∈ denoteV st v)
  | .withTarget q v =>
    (denoteE st q).filter fun j =>
      st.edges.any fun e => e.id == j && decide (e.target ∈ denoteV st v)
  | .inOf v =>
    (edgeIds st).filter fun j =>
      st.edges.any fun e => e.id == j && decide (e.target ∈ denoteV st v)
  | .outOf v =>
    (edgeIds st).filter fun j =>
      st.edges.any fun e => e.id == j && decide (e.source ∈ denoteV st v)
  | .stPairs l r =>
    (edgeIds st).filter fun j =>
      st.edges.any fun e =>
        e.id == j && decide (e.source ∈ denoteV st l) &&
          decide (e.target ∈ denoteV st r)
  | .idIn ids => edgeIds st ∩ ids.toFinset
end

mutual
/-- Subquery nesting depth of a vertex command: how deeply statements
are nested inside `FROM (...)` / `IN (...)` parentheses. -/
def depthV : VQuery → Nat
  | .all => 1
  | .whereId _ => 1
  | .limit q _ => depthV q + 1
  | .withLabel q _ => depthV q + 1
  | .withTag q _ _ => depthV q + 1
  | .withId q _ => depthV q + 1
  | .union a b => max (depthV a) (depthV b)
  | .inter a b => max (depthV a) (depthV b)
  | .nin a b => max (depthV a) (depthV b) + 1
  | .withInDegree q _ => depthV q + 1
  | .withOutDegree q _ => depthV q + 1
  | .sourceOf e => depthE e + 1
  | .targetOf e => depthE e + 1
  | .idIn _ => 1

/-- Subquery nesting depth of an edge command. -/
def depthE : EQuery → Nat
  | .all => 1
  | .whereId _ => 1
  | .limit q _ => depthE q + 1
  | .withLabel q _ => depthE q + 1
  | .withTag q _ _ => depthE q + 1
  | .withId q _ => depthE q + 1
  | .union a b => max (depthE a) (depthE b)
  | .inter a b => max (depthE a) (depthE b)
  | .nin a b => max (depthE a) (depthE b) + 1
  | .withSource q v => max (depthE q) (depthV v) + 1
  | .withTarget q v => max (depthE q) (depthV v) + 1
  | .inOf v => depthV v + 1
  | .outOf v => depthV v + 1
  | .stPairs l r => max (depthV l) (depthV r) + 1
  | .idIn _ => 1
end

theorem sortTake_subset (s : Finset Nat) (n : Nat) : sortTake s n ⊆ s := by
  intro i hi
  unfold sortTake at hi
  rw [List.mem_toFinset] at hi
  have := List.take_subset n (s.sort (· ≤ ·)) hi
  rwa [Finset.mem_sort] at this

mutual
/-- Every vertex command denotes a subset of the `nodes` table's ids:
each template selects (projections of) rows of `nodes`. -/
theorem denoteV_subset (st : Store) : ∀ q : VQuery, denoteV st q ⊆ nodeIds st
  | .all => by rw [denoteV]
  | .whereId _ => by rw [denoteV]; exact Finset.filter_subset _ _
  | .limit q n => by
    rw [denoteV]
    exact (sortTake_subset _ _).trans (denoteV_subset st q)
  | .withLabel q _ => by
    rw [denoteV]
    exact (Finset.filter_subset _ _).trans (denoteV_subset st q)
  | .withTag q _ _ => by
    rw [denoteV]
    exact (Finset.filter_subset _ _).trans (denoteV_subset st q)
  | .withId q _ => by
    rw [denoteV]
    exact (Finset.filter_subset _ _).trans (denoteV_subset st q)
  | .union a b => by
    rw [denoteV]
    exact Finset.union_subset (denoteV_subset st a) (denoteV_subset st b)
  | .inter a b => by
    rw [denoteV]
    exact Finset.inter_subset_left.trans (denoteV_subset st a)
  | .nin a b => by
    rw [denoteV]
    exact Finset.sdiff_subset.trans (denoteV_subset st a)
  | .withInDegree q _ => by
    rw [denoteV]
    exact (Finset.filter_subset _ _).trans (denoteV_subset st q)
  | .withOutDegree q _ => by
    rw [denoteV]
    exact (Finset.filter_subset _ _).trans (denoteV_subset st q)
  | .sourceOf _ => by rw [denoteV]; exact Finset.inter_subset_left
  | .targetOf _ => by rw [denoteV]; exact Finset.inter_subset_left
  | .idIn _ => by rw [denoteV]; exact Finset.inter_subset_left

/-- Every edge command denotes a subset of the `edges` table's ids. -/
theorem denoteE_subset (st : Store) : ∀ q : EQuery, denoteE st q ⊆ edgeIds st
  | .all => by rw [denoteE]
  | .whereId _ => by rw [denoteE]; exact Finset.filter_subset _ _
  | .limit q n => by
    rw [denoteE]
    exact (sortTake_subset _ _).trans (denoteE_subset st q)
  | .withLabel q _ => by
    rw [denoteE]
    exact (Finset.filter_subset _ _).trans (denoteE_subset st q)
  | .withTag q _ _ => by
    rw [denoteE]
    exact (Finset.filter_subset _ _).trans (denoteE_subset st q)
  | .withId q _ => by
    rw [denoteE]
    exact (Finset.filter_subset _ _).trans (denoteE_subset st q)
  | .union a b => by
    rw [denoteE]
    exact Finset.union_subset (denoteE_subset st a) (denoteE_subset st b)
  | .inter a b => by
    rw [denoteE]
    exact Finset.inter_subset_left.trans (denoteE_subset st a)
  | .nin a b => by
    rw [denoteE]
    exact Finset.sdiff_subset.trans (denoteE_subset st a)
  | .withSource q _ => by
    rw [denoteE]
    exact (Finset.filter_subset _ _).trans (denoteE_subset st q)
  | .withTarget q _ => by
    rw [denoteE]
    exact (Finset.filter_subset _ _).trans (denoteE_subset st q)
  | .inOf _ => by rw [denoteE]; exact Finset.filter_subset _ _
  | .outOf _ => by rw [denoteE]; exact Finset.filter_subset _ _
  | .stPairs _ _ => by rw [denoteE]; exact Finset.filter_subset _ _
  | .idIn _ => by rw [denoteE]; exact Finset.inter_subset_left
end

/-!
The bounce mechanism.  `GQL_BOUNCE_THRESH` defaults to 128.  Both
Selection constructors check the incoming command text's size; past
the threshold they run the id-only query `SELECT id FROM (cmd) ORDER
BY id;` against the incoming text and replace the command with the
flat `id IN (list)` form.
-/

/-- The bounce threshold (`#define GQL_BOUNCE_THRESH 128`). -/
def GQL_BOUNCE_THRESH : Nat := 128

/-- `Vertices::id()` / `Edges::id()`: the denoted ids in ascending
order (`ORDER BY id`). -/
def sortedIds (s : Finset Nat) : List Nat := s.sort (· ≤ ·)

/-- The `GQL::Vertices` constructor: past the threshold, replace the
command with `SELECT * FROM nodes WHERE id IN (<ids>)`. -/
def mkVertices (st : Store) (q : VQuery) : VQuery :=
  if GQL_BOUNCE_THRESH < (textV q).length then
    VQuery.idIn (sortedIds (denoteV st q))
  else q

/-- The `GQL::Edges` constructor: past the threshold, replace the
command with `SELECT * FROM edges WHERE id IN (<ids>)`. -/
def mkEdges (st : Store) (q : EQuery) : EQuery :=
  if GQL_BOUNCE_THRESH < (textE q).length then
    EQuery.idIn (sortedIds (denoteE st q))
  else q

theorem sortedIds_toFinset (s : Finset Nat) : (sortedIds s).toFinset = s := by
  unfold sortedIds
  exact Finset.sort_toFinset _ _

/-- Claim C1: for every Selection whose compiled expression text
exceeds `GQL_BOUNCE_THRESH`, the constructor replaces the expression
with the flat `id IN (list)` form over the concrete identifiers the
old expression denotes; the replacement denotes exactly the same id
set, and its subquery nesting depth is one.  This holds for both the
vertex and the edge constructor. -/
theorem C1_bounce_flattens_and_preserves (st : Store) (qv : VQuery) (qe : EQuery)
    (hv : GQL_BOUNCE_THRESH < (textV qv).length)
    (he : GQL_BOUNCE_THRESH < (textE qe).length) :
    mkVertices st qv = VQuery.idIn (sortedIds (denoteV st qv)) ∧
      denoteV st (mkVertices st qv) = denoteV st qv ∧
      depthV (mkVertices st qv) = 1 ∧
      mkEdges st qe = EQuery.idIn (sortedIds (denoteE st qe)) ∧
      denoteE st (mkEdges st qe) = denoteE st qe ∧
      depthE (mkEdges st qe) = 1 := by
  have hv1 : mkVertices st qv = VQuery.idIn (sortedIds (denoteV st qv)) := by
    unfold mkVertices
    rw [if_pos hv]
  have he1 : mkEdges st qe = EQuery.idIn (sortedIds (denoteE st qe)) := by
    unfold mkEdges
    rw [if_pos he]
  refine ⟨hv1, ?_, ?_, he1, ?_, ?_⟩
  · rw [hv1, denoteV, sortedIds_toFinset]
    exact Finset.inter_eq_right.mpr (denoteV_subset st qv)
  · rw [hv1, depthV]
  · rw [he1, denoteE, sortedIds_toFinset]
    exact Finset.inter_eq_right.mpr (denoteE_subset st qe)
  · rw [he1, depthE]

set_option maxRecDepth 8000 in
/-- Witness for `C1_bounce_flattens_and_preserves`: over a two-node,
one-edge store, a thrice-nested exclusion command (157 characters)
bounces to the id list it denotes. -/
theorem C1_bounce_flattens_and_preserves_witness :
    (GQL_BOUNCE_THRESH <
        (textV (VQuery.nin VQuery.all (VQuery.nin VQuery.all VQuery.all))).length ∧
      GQL_BOUNCE_THRESH <
        (textE (EQuery.nin EQuery.all (EQuery.nin EQuery.all EQuery.all))).length) ∧
      (mkVertices ⟨[⟨1, "", []⟩, ⟨2, "", []⟩], [⟨1, 1, 2, "", []⟩]⟩
          (VQuery.nin VQuery.all (VQuery.nin VQuery.all VQuery.all)) =
        VQuery.idIn (sortedIds (denoteV ⟨[⟨1, "", []⟩, ⟨2, "", []⟩], [⟨1, 1, 2, "", []⟩]⟩
          (VQuery.nin VQuery.all (VQuery.nin VQuery.all VQuery.all)))) ∧
        denoteV ⟨[⟨1, "", []⟩, ⟨2, "", []⟩], [⟨1, 1, 2, "", []⟩]⟩
            (mkVertices ⟨[⟨1, "", []⟩, ⟨2, "", []⟩], [⟨1, 1, 2, "", []⟩]⟩
              (VQuery.nin VQuery.all (VQuery.nin VQuery.all VQuery.all))) =
          denoteV ⟨[⟨1, "", []⟩, ⟨2, "", []⟩], [⟨1, 1, 2, "", []⟩]⟩
            (VQuery.nin VQuery.all (VQuery.nin VQuery.all VQuery.all)) ∧
        depthV (mkVertices ⟨[⟨1, "", []⟩, ⟨2, "", []⟩], [⟨1, 1, 2, "", []⟩]⟩
          (VQuery.nin VQuery.all (VQuery.nin VQuery.all VQuery.all))) = 1 ∧
        mkEdges ⟨[⟨1, "", []⟩, ⟨2, "", []⟩], [⟨1, 1, 2, "", []⟩]⟩
            (EQuery.nin EQuery.all (EQuery.nin EQuery.all EQuery.all)) =
          EQuery.idIn (sortedIds (denoteE ⟨[⟨1, "", []⟩, ⟨2, "", []⟩], [⟨1, 1, 2, "", []⟩]⟩
            (EQuery.nin EQuery.all (EQuery.nin EQuery.all EQuery.all)))) ∧
        denoteE ⟨[⟨1, "", []⟩, ⟨2, "", []⟩], [⟨1, 1, 2, "", []⟩]⟩
            (mkEdges ⟨[⟨1, "", []⟩, ⟨2, "", []⟩], [⟨1, 1, 2, "", []⟩]⟩
              (EQuery.nin EQuery.all (EQuery.nin EQuery.all EQuery.all))) =
          denoteE ⟨[⟨1, "", []⟩, ⟨2, "", []⟩], [⟨1, 1, 2, "", []⟩]⟩
            (EQuery.nin EQuery.all (EQuery.nin EQuery.all EQuery.all)) ∧
        depthE (mkEdges ⟨[⟨1, "", []⟩, ⟨2, "", []⟩], [⟨1, 1, 2, "", []⟩]⟩
          (EQuery.nin EQuery.all (EQuery.nin EQuery.all EQuery.all))) = 1) :=
  ⟨⟨by decide, by decide⟩,
    C1_bounce_flattens_and_preserves _ _ _ (by decide) (by decide)⟩

/-!
Session state.  A `GQL` object owns the store, the monotonically
increasing `sql_call_counter` (incremented by `GQL::sql` on every
statement, including the id query of a bounce), and the id counters
for un-keyed insertion.
-/

/-- The mutable state of a `GQL` session. -/
structure SessionState where
  store : Store
  sql_call_counter : Nat
  next_node_id : Nat
  next_edge_id : Nat
deriving DecidableEq

/-- The `GQL::Vertices` constructor as a state transformer: a bounce
runs `this->id()` — one `SELECT id FROM (cmd) ORDER BY id;` through
`GQL::sql`, incrementing the call counter — and swaps in the flat id
list.  The store itself is never written. -/
def mkVerticesSt (s : SessionState) (q : VQuery) : SessionState × VQuery :=
  if GQL_BOUNCE_THRESH < (textV q).length then
    ({ s with sql_call_counter := s.sql_call_counter + 1 },
      VQuery.idIn (sortedIds (denoteV s.store q)))
  else (s, q)

/-- The `GQL::Edges` constructor as a state transformer. -/
def mkEdgesSt (s : SessionState) (q : EQuery) : SessionState × EQuery :=
  if GQL_BOUNCE_THRESH < (textE q).length then
    ({ s with sql_call_counter := s.sql_call_counter + 1 },
      EQuery.idIn (sortedIds (denoteE s.store q)))
  else (s, q)

/-- `Vertices::limit`. -/
def limitV (s : SessionState) (q : VQuery) (n : Nat) : SessionState × VQuery :=
  mkVerticesSt s (VQuery.limit q n)

/-- `Vertices::with_label`. -/
def with_labelV (s : SessionState) (q : VQuery) (lab : List Byte) :
    SessionState × VQuery :=
  mkVerticesSt s (VQuery.withLabel q lab)

/-- `Vertices::with_tag`. -/
def with_tagV (s : SessionState) (q : VQuery) (k v : List Byte) :
    SessionState × VQuery :=
  mkVerticesSt s (VQuery.withTag q k v)

/-- `Vertices::with_id`. -/
def with_idV (s : SessionState) (q : VQuery) (i : Nat) : SessionState × VQuery :=
  mkVerticesSt s (VQuery.withId q i)

/-- `Vertices::join`. -/
def joinV (s : SessionState) (q other : VQuery) : SessionState × VQuery :=
  mkVerticesSt s (VQuery.union q other)

/-- `Vertices::intersection`. -/
def intersectionV (s : SessionState) (q other : VQuery) : SessionState × VQuery :=
  mkVerticesSt s (VQuery.inter q other)

/-- `Vertices::complement` (universe minus self). -/
def complementV (s : SessionState) (q univq : VQuery) : SessionState × VQuery :=
  mkVerticesSt s (VQuery.nin univq q)

/-- `Vertices::excluding` (self minus subgroup). -/
def excludingV (s : SessionState) (q subgroup : VQuery) : SessionState × VQuery :=
  mkVerticesSt s (VQuery.nin q subgroup)

/-- `Vertices::with_in_degree`. -/
def with_in_degreeV (s : SessionState) (q : VQuery) (n : Nat) :
    SessionState × VQuery :=
  mkVerticesSt s (VQuery.withInDegree q n)

/-- `Vertices::with_out_degree`. -/
def with_out_degreeV (s : SessionState) (q : VQuery) (n : Nat) :
    SessionState × VQuery :=
  mkVerticesSt s (VQuery.withOutDegree q n)

/-- `Vertices::in` — incoming edges. -/
def inEdgesV (s : SessionState) (q : VQuery) : SessionState × EQuery :=
  mkEdgesSt s (EQuery.inOf q)

/-- `Vertices::out` — outgoing edges. -/
def outEdgesV (s : SessionState) (q : VQuery) : SessionState × EQuery :=
  mkEdgesSt s (EQuery.outOf q)

/-- `Edges::with_source`. -/
def with_sourceE (s : SessionState) (q : EQuery) (v : VQuery) :
    SessionState × EQuery :=
  mkEdgesSt s (EQuery.withSource q v)

/-- `Edges::with_target`. -/
def with_targetE (s : SessionState) (q : EQuery) (v : VQuery) :
    SessionState × EQuery :=
  mkEdgesSt s (EQuery.withTarget q v)

set_option maxRecDepth 8000 in
/-- Counterexample to claim C3: combinators are *not* always free of
backend calls.  Applying `excluding` to the all-vertices Selection
with an argument whose own compiled text is already sizable produces
a 157-character command, which exceeds `GQL_BOUNCE_THRESH = 128`; the
constructor then immediately executes an id query, incrementing the
backend-call counter. -/
theorem C3_combinator_issues_backend_call :
    (excludingV ⟨⟨[], []⟩, 0, 1, 1⟩ VQuery.all
        (VQuery.nin VQuery.all VQuery.all)).1.sql_call_counter = 1 ∧
      (⟨⟨[], []⟩, 0, 1, 1⟩ : SessionState).sql_call_counter = 0 := by
  constructor
  · decide
  · rfl

/-- Claim C3 (amended): every non-materializing combinator is the
Selection constructor applied to a syntactic rewrite of its operands;
the constructor never writes the backing store, and it leaves the
whole session state (backend-call counter included) unchanged exactly
when the newly compiled text does not exceed the bounce threshold —
otherwise it issues exactly one id-collection query, incrementing the
counter by one while still leaving the store unchanged. -/
theorem C3_combinators_pure_unless_bounce (s : SessionState) (q other : VQuery)
    (eq1 : EQuery) (n i : Nat) (lab k v : List Byte) :
    (limitV s q n = mkVerticesSt s (VQuery.limit q n) ∧
      with_labelV s q lab = mkVerticesSt s (VQuery.withLabel q lab) ∧
      with_tagV s q k v = mkVerticesSt s (VQuery.withTag q k v) ∧
      with_idV s q i = mkVerticesSt s (VQuery.withId q i) ∧
      joinV s q other = mkVerticesSt s (VQuery.union q other) ∧
      intersectionV s q other = mkVerticesSt s (VQuery.inter q other) ∧
      complementV s q other = mkVerticesSt s (VQuery.nin other q) ∧
      excludingV s q other = mkVerticesSt s (VQuery.nin q other) ∧
      with_in_degreeV s q n = mkVerticesSt s (VQuery.withInDegree q n) ∧
      with_out_degreeV s q n = mkVerticesSt s (VQuery.withOutDegree q n) ∧
      inEdgesV s q = mkEdgesSt s (EQuery.inOf q) ∧
      outEdgesV s q = mkEdgesSt s (EQuery.outOf q) ∧
      with_sourceE s eq1 q = mkEdgesSt s (EQuery.withSource eq1 q) ∧
      with_targetE s eq1 q = mkEdgesSt s (EQuery.withTarget eq1 q)) ∧
    ((mkVerticesSt s q).1.store = s.store ∧
      ((textV q).length ≤ GQL_BOUNCE_THRESH → mkVerticesSt s q = (s, q)) ∧
      (GQL_BOUNCE_THRESH < (textV q).length →
        (mkVerticesSt s q).1.sql_call_counter = s.sql_call_counter + 1)) ∧
    ((mkEdgesSt s eq1).1.store = s.store ∧
      ((textE eq1).length ≤ GQL_BOUNCE_THRESH → mkEdgesSt s eq1 = (s, eq1)) ∧
      (GQL_BOUNCE_THRESH < (textE eq1).length →
        (mkEdgesSt s eq1).1.sql_call_counter = s.sql_call_counter + 1)) := by
  refine ⟨⟨rfl, rfl, rfl, rfl, rfl, rfl, rfl, rfl, rfl, rfl, rfl, rfl, rfl, rfl⟩,
    ⟨?_, ?_, ?_⟩, ⟨?_, ?_, ?_⟩⟩
  · unfold mkVerticesSt
    split <;> rfl
  · intro h
    unfold mkVerticesSt
    rw [if_neg (by omega)]
  · intro h
    unfold mkVerticesSt
    rw [if_pos h]
  · unfold mkEdgesSt
    split <;> rfl
  · intro h
    unfold mkEdgesSt
    rw [if_neg (by omega)]
  · intro h
    unfold mkEdgesSt
    rw [if_pos h]

set_option maxRecDepth 8000 in
/-- Witness for `C3_combinators_pure_unless_bounce`: on an empty
session, `join` of two all-vertex Selections (43 characters, within
the threshold) leaves the state untouched, while a 157-character
exclusion chain bounces and bumps the counter from 0 to 1. -/
theorem C3_combinators_pure_unless_bounce_witness :
    joinV ⟨⟨[], []⟩, 0, 1, 1⟩ VQuery.all VQuery.all =
        mkVerticesSt ⟨⟨[], []⟩, 0, 1, 1⟩ (VQuery.union VQuery.all VQuery.all) ∧
      mkVerticesSt ⟨⟨[], []⟩, 0, 1, 1⟩ (VQuery.union VQuery.all VQuery.all) =
        (⟨⟨[], []⟩, 0, 1, 1⟩, VQuery.union VQuery.all VQuery.all) ∧
      (mkVerticesSt ⟨⟨[], []⟩, 0, 1, 1⟩
          (VQuery.nin VQuery.all (VQuery.nin VQuery.all VQuery.all))).1.sql_call_counter =
        (⟨⟨[], []⟩, 0, 1, 1⟩ : SessionState).sql_call_counter + 1 := by
  refine ⟨(C3_combinators_pure_unless_bounce ⟨⟨[], []⟩, 0, 1, 1⟩ VQuery.all
      VQuery.all EQuery.all 0 0 [] [] []).1.2.2.2.2.1, ?_, ?_⟩
  · exact (C3_combinators_pure_unless_bounce ⟨⟨[], []⟩, 0, 1, 1⟩
      (VQuery.union VQuery.all VQuery.all) VQuery.all EQuery.all
      0 0 [] [] []).2.1.2.1 (by decide)
  · exact (C3_combinators_pure_unless_bounce ⟨⟨[], []⟩, 0, 1, 1⟩
      (VQuery.nin VQuery.all (VQuery.nin VQuery.all VQuery.all)) VQuery.all
      EQuery.all 0 0 [] [] []).2.1.2.2 (by decide)

/-!
Cross-session checks.  A Selection carries a pointer to its owning
`GQL` instance (modelled as a numeric session identifier).  Only the
copy-assignment operators contain an owner check
(`assert(owner == _other.owner)`); the binary combinators simply reuse
`this->owner` and splice the other operand's command text.  We model
each combining operation at the point its body runs, `none` standing
for a failed assertion.
-/

/-- A vertex Selection handle: owning session plus compiled command. -/
structure VSel where
  owner : Nat
  cmd : VQuery
deriving DecidableEq

/-- An edge Selection handle. -/
structure ESel where
  owner : Nat
  cmd : EQuery
deriving DecidableEq

/-- `Vertices::operator=`: asserts same owner, then copies the command. -/
def vselAssign (self other : VSel) : Option VSel :=
  if self.owner = other.owner then some ⟨self.owner, other.cmd⟩ else none

/-- `Edges::operator=`: asserts same owner, then copies the command. -/
def eselAssign (self other : ESel) : Option ESel :=
  if self.owner = other.owner then some ⟨self.owner, other.cmd⟩ else none

/-- `Vertices::join`: no owner check. -/
def vselJoin (self other : VSel) : Option VSel :=
  some ⟨self.owner, VQuery.union self.cmd other.cmd⟩

/-- `Vertices::intersection`: no owner check. -/
def vselIntersection (self other : VSel) : Option VSel :=
  some ⟨self.owner, VQuery.inter self.cmd other.cmd⟩

/-- `Vertices::complement`: no owner check. -/
def vselComplement (self univ : VSel) : Option VSel :=
  some ⟨self.owner, VQuery.nin univ.cmd self.cmd⟩

/-- `Vertices::excluding`: no owner check. -/
def vselExcluding (self subgroup : VSel) : Option VSel :=
  some ⟨self.owner, VQuery.nin self.cmd subgroup.cmd⟩

/-- `Edges::join`: no owner check. -/
def eselJoin (self other : ESel) : Option ESel :=
  some ⟨self.owner, EQuery.union self.cmd other.cmd⟩

/-- `Edges::intersection`: no owner check. -/
def eselIntersection (self other : ESel) : Option ESel :=
  some ⟨self.owner, EQuery.inter self.cmd other.cmd⟩

/-- `Edges::complement`: no owner check. -/
def eselComplement (self univ : ESel) : Option ESel :=
  some ⟨self.owner, EQuery.nin univ.cmd self.cmd⟩

/-- `Edges::excluding`: no owner check. -/
def eselExcluding (self subgroup : ESel) : Option ESel :=
  some ⟨self.owner, EQuery.nin self.cmd subgroup.cmd⟩

/-- `Edges::with_source`: no owner check on the vertex operand. -/
def eselWithSource (self : ESel) (v : VSel) : Option ESel :=
  some ⟨self.owner, EQuery.withSource self.cmd v.cmd⟩

/-- `Edges::with_target`: no owner check on the vertex operand. -/
def eselWithTarget (self : ESel) (v : VSel) : Option ESel :=
  some ⟨self.owner, EQuery.withTarget self.cmd v.cmd⟩

/-- Cartesian `Vertices::add_edge`: no owner check; the returned edge
Selection is owned by the left operand's session. -/
def vselAddEdge (self other : VSel) : Option ESel :=
  some ⟨self.owner, EQuery.stPairs self.cmd other.cmd⟩

/-- Counterexample to claim C9: joining two Selections owned by
different sessions (owners 0 and 1) raises no error at all — the
operation succeeds and silently adopts the left operand's owner.  Only
assignment carries the explicit owner check. -/
theorem C9_join_skips_owner_check :
    (⟨0, VQuery.all⟩ : VSel).owner ≠ (⟨1, VQuery.all⟩ : VSel).owner ∧
      vselJoin ⟨0, VQuery.all⟩ ⟨1, VQuery.all⟩ =
        some ⟨0, VQuery.union VQuery.all VQuery.all⟩ := by
  exact ⟨by decide, rfl⟩

/-- Claim C9 (amended): among the combining operations, only the two
copy-assignment operators check ownership, failing exactly on
cross-session operands; `join`, `intersection`, `complement`,
`excluding`, `with_source`, `with_target` and the cartesian `add_edge`
perform no cross-session check and always return a Selection owned by
the left operand's session. -/
theorem C9_only_assignment_checks_owner (a b : VSel) (c d : ESel) :
    (vselAssign a b = none ↔ a.owner ≠ b.owner) ∧
      (eselAssign c d = none ↔ c.owner ≠ d.owner) ∧
      vselJoin a b = some ⟨a.owner, VQuery.union a.cmd b.cmd⟩ ∧
      vselIntersection a b = some ⟨a.owner, VQuery.inter a.cmd b.cmd⟩ ∧
      vselComplement a b = some ⟨a.owner, VQuery.nin b.cmd a.cmd⟩ ∧
      vselExcluding a b = some ⟨a.owner, VQuery.nin a.cmd b.cmd⟩ ∧
      eselJoin c d = some ⟨c.owner, EQuery.union c.cmd d.cmd⟩ ∧
      eselIntersection c d = some ⟨c.owner, EQuery.inter c.cmd d.cmd⟩ ∧
      eselComplement c d = some ⟨c.owner, EQuery.nin d.cmd c.cmd⟩ ∧
      eselExcluding c d = some ⟨c.owner, EQuery.nin c.cmd d.cmd⟩ ∧
      eselWithSource c a = some ⟨c.owner, EQuery.withSource c.cmd a.cmd⟩ ∧
      eselWithTarget c a = some ⟨c.owner, EQuery.withTarget c.cmd a.cmd⟩ ∧
      vselAddEdge a b = some ⟨a.owner, EQuery.stPairs a.cmd b.cmd⟩ := by
  refine ⟨?_, ?_, rfl, rfl, rfl, rfl, rfl, rfl, rfl, rfl, rfl, rfl, rfl⟩
  · unfold vselAssign
    split
    · simp_all
    · simp_all
  · unfold eselAssign
    split
    · simp_all
    · simp_all

/-!
Erasure.  `Vertices::erase` deletes the selected node rows and then
sweeps the whole `edges` relation, deleting every edge whose source or
target no longer appears among the remaining node ids.
`Edges::erase` deletes the selected edge rows and touches nothing
else.
-/

/-- `Vertices::erase`: `DELETE FROM nodes WHERE id IN (SELECT id FROM
(cmd));` followed by `WITH ids AS (SELECT id FROM nodes) DELETE FROM
edges WHERE source NOT IN ids OR target NOT IN ids;`. -/
def eraseVertices (st : Store) (q : VQuery) : Store :=
  let del := denoteV st q
  let nodes2 := st.nodes.filter fun n => decide (n.id ∉ del)
  let keep := (nodes2.map NodeRow.id).toFinset
  { nodes := nodes2,
    edges := st.edges.filter fun e =>
      decide (e.source ∈ keep) && decide (e.target ∈ keep) }

/-- `Edges::erase`: `DELETE FROM edges WHERE id IN (SELECT id FROM
(cmd))`; the `nodes` relation is not touched. -/
def eraseEdges (st : Store) (q : EQuery) : Store :=
  { st with edges := st.edges.filter fun e => decide (e.id ∉ denoteE st q) }

/-- No edge dangles: every edge's endpoints are present node ids. -/
def noDangling (st : Store) : Prop :=
  ∀ e ∈ st.edges, e.source ∈ nodeIds st ∧ e.target ∈ nodeIds st

theorem eraseVertices_keep_mem (st : Store) (q : VQuery) (i : Nat) :
    (i ∈ (((st.nodes.filter fun n => decide (n.id ∉ denoteV st q)).map
        NodeRow.id).toFinset)) ↔ i ∈ nodeIds st ∧ i ∉ denoteV st q := by
  simp only [List.mem_toFinset, List.mem_map, List.mem_filter, nodeIds,
    decide_eq_true_eq]
  constructor
  · rintro ⟨n, ⟨hn, hnd⟩, rfl⟩
    exact ⟨⟨n, hn, rfl⟩, hnd⟩
  · rintro ⟨⟨n, hn, rfl⟩, hnd⟩
    exact ⟨n, ⟨hn, hnd⟩, rfl⟩

/-- Claim C5: over a store with no pre-existing dangling edges,
`Vertices::erase` removes from `nodes` exactly the selected vertices
and from `edges` exactly the edges whose source or target id is among
the erased ids; all other rows survive unchanged, and erasing the
all-vertices Selection empties both relations. -/
theorem C5_vertex_erase_cascades (st : Store) (q : VQuery) (hnd : noDangling st) :
    (∀ n : NodeRow, n ∈ (eraseVertices st q).nodes ↔
        n ∈ st.nodes ∧ n.id ∉ denoteV st q) ∧
      (∀ e : EdgeRow, e ∈ (eraseVertices st q).edges ↔
        e ∈ st.edges ∧ ¬(e.source ∈ denoteV st q ∨ e.target ∈ denoteV st q)) ∧
      (eraseVertices st VQuery.all).nodes = [] ∧
      (eraseVertices st VQuery.all).edges = [] := by
  refine ⟨?_, ?_, ?_, ?_⟩
  · intro n
    simp [eraseVertices, List.mem_filter]
  · intro e
    simp only [eraseVertices, List.mem_filter, Bool.and_eq_true, decide_eq_true_eq]
    constructor
    · rintro ⟨he, hs, ht⟩
      rw [eraseVertices_keep_mem] at hs ht
      exact ⟨he, by tauto⟩
    · rintro ⟨he, hq⟩
      push_neg at hq
      refine ⟨he, ?_, ?_⟩
      · rw [eraseVertices_keep_mem]
        exact ⟨(hnd e he).1, hq.1⟩
      · rw [eraseVertices_keep_mem]
        exact ⟨(hnd e he).2, hq.2⟩
  · have hn2 : (st.nodes.filter fun n => decide (n.id ∉ denoteV st VQuery.all)) = [] := by
      apply List.filter_eq_nil_iff.mpr
      intro n hn
      simp only [denoteV, decide_eq_true_eq, Decidable.not_not]
      simp only [nodeIds, List.mem_toFinset, List.mem_map]
      exact ⟨n, hn, rfl⟩
    simp only [eraseVertices]
    exact hn2
  · have hn2 : (st.nodes.filter fun n => decide (n.id ∉ denoteV st VQuery.all)) = [] := by
      apply List.filter_eq_nil_iff.mpr
      intro n hn
      simp only [denoteV, decide_eq_true_eq, Decidable.not_not]
      simp only [nodeIds, List.mem_toFinset, List.mem_map]
      exact ⟨n, hn, rfl⟩
    simp only [eraseVertices, hn2]
    apply List.filter_eq_nil_iff.mpr
    intro e he
    simp

/-- Witness for `C5_vertex_erase_cascades`: a three-node store with
edges 1 → 2 and 2 → 3 has no dangling edge; erasing the Selection of
vertex 2 removes node 2 together with both incident edges and keeps
nodes 1 and 3. -/
theorem C5_vertex_erase_cascades_witness :
    noDangling ⟨[⟨1, "", []⟩, ⟨2, "", []⟩, ⟨3, "", []⟩],
        [⟨1, 1, 2, "", []⟩, ⟨2, 2, 3, "", []⟩]⟩ ∧
      (∀ n : NodeRow, n ∈ (eraseVertices ⟨[⟨1, "", []⟩, ⟨2, "", []⟩, ⟨3, "", []⟩],
          [⟨1, 1, 2, "", []⟩, ⟨2, 2, 3, "", []⟩]⟩ (VQuery.whereId 2)).nodes ↔
        n ∈ [⟨1, "", []⟩, ⟨2, "", []⟩, (⟨3, "", []⟩ : NodeRow)] ∧
          n.id ∉ denoteV ⟨[⟨1, "", []⟩, ⟨2, "", []⟩, ⟨3, "", []⟩],
            [⟨1, 1, 2, "", []⟩, ⟨2, 2, 3, "", []⟩]⟩ (VQuery.whereId 2)) ∧
      (∀ e : EdgeRow, e ∈ (eraseVertices ⟨[⟨1, "", []⟩, ⟨2, "", []⟩, ⟨3, "", []⟩],
          [⟨1, 1, 2, "", []⟩, ⟨2, 2, 3, "", []⟩]⟩ (VQuery.whereId 2)).edges ↔
        e ∈ [⟨1, 1, 2, "", []⟩, (⟨2, 2, 3, "", []⟩ : EdgeRow)] ∧
          ¬(e.source ∈ denoteV ⟨[⟨1, "", []⟩, ⟨2, "", []⟩, ⟨3, "", []⟩],
              [⟨1, 1, 2, "", []⟩, ⟨2, 2, 3, "", []⟩]⟩ (VQuery.whereId 2) ∨
            e.target ∈ denoteV ⟨[⟨1, "", []⟩, ⟨2, "", []⟩, ⟨3, "", []⟩],
              [⟨1, 1, 2, "", []⟩, ⟨2, 2, 3, "", []⟩]⟩ (VQuery.whereId 2))) ∧
      (eraseVertices ⟨[⟨1, "", []⟩, ⟨2, "", []⟩, ⟨3, "", []⟩],
        [⟨1, 1, 2, "", []⟩, ⟨2, 2, 3, "", []⟩]⟩ VQuery.all).nodes = [] ∧
      (eraseVertices ⟨[⟨1, "", []⟩, ⟨2, "", []⟩, ⟨3, "", []⟩],
        [⟨1, 1, 2, "", []⟩, ⟨2, 2, 3, "", []⟩]⟩ VQuery.all).edges = [] := by
  have hnd : noDangling ⟨[⟨1, "", []⟩, ⟨2, "", []⟩, ⟨3, "", []⟩],
      [⟨1, 1, 2, "", []⟩, ⟨2, 2, 3, "", []⟩]⟩ := by
    intro e he
    fin_cases he <;> exact ⟨by decide, by decide⟩
  exact ⟨hnd, C5_vertex_erase_cascades _ (VQuery.whereId 2) hnd⟩

/-- Claim C10: `Edges::erase` removes exactly the selected edges from
the `edges` relation and leaves the `nodes` relation completely
unchanged, whether or not the erased edges were a vertex's only
incident edges. -/
theorem C10_edge_erase_never_cascades (st : Store) (q : EQuery) :
    (eraseEdges st q).nodes = st.nodes ∧
      ∀ e : EdgeRow, e ∈ (eraseEdges st q).edges ↔
        e ∈ st.edges ∧ e.id ∉ denoteE st q := by
  refine ⟨rfl, ?_⟩
  intro e
  simp [eraseEdges, List.mem_filter]

/-!
Traversal (`Vertices::traverse` / `Vertices::r_traverse` from
src/gql.hpp).  The compiled command is a recursive CTE whose base case
is the seed Selection's id set and whose recursive case adds
`e.target` (`e.source` for `r_traverse`) for every edge `e` satisfying
the edge condition whose other endpoint is already accumulated and
whose added endpoint is a node satisfying the node condition; the
final `SELECT * FROM t JOIN nodes ON t.id = nodes.id` restricts the
accumulated ids to existing node rows.  SQLite's recursive evaluation
with `UNION` computes exactly the closure of this step; we model it by
iterating the step function enough times to reach its fixed point.
-/

/-- One expansion step of the recursive traversal CTE, generic in
which endpoint is followed: `src e` must already be in the set, and
`dst e` is added when it is a node row satisfying the node filter. -/
def travStepG (st : Store) (ncond : NodeRow → Bool) (econd : EdgeRow → Bool)
    (src dst : EdgeRow → Nat) (s : Finset Nat) : Finset Nat :=
  s ∪ ((st.edges.filter fun e => econd e && decide (src e ∈ s) &&
      (st.nodes.any fun n => n.id == dst e && ncond n)).map dst).toFinset

/-- Iterate a step function `n` times. -/
def iterStep (f : Finset Nat → Finset Nat) : Nat → Finset Nat → Finset Nat
  | 0, s => s
  | n + 1, s => iterStep f n (f s)

/-- `Vertices::traverse`: follow edges forwards from the seed ids and
keep the node rows reached. -/
def traverse (st : Store) (ncond : NodeRow → Bool) (econd : EdgeRow → Bool)
    (seed : Finset Nat) : Finset Nat :=
  iterStep (travStepG st ncond econd EdgeRow.source EdgeRow.target)
    (seed ∪ nodeIds st).card seed ∩ nodeIds st

/-- `Vertices::r_traverse`: follow edges backwards from the seed ids. -/
def r_traverse (st : Store) (ncond : NodeRow → Bool) (econd : EdgeRow → Bool)
    (seed : Finset Nat) : Finset Nat :=
  iterStep (travStepG st ncond econd EdgeRow.target EdgeRow.source)
    (seed ∪ nodeIds st).card seed ∩ nodeIds st

/-- Closure under one traversal direction: whenever an edge `e`
satisfies the edge condition, its `src` endpoint is in `T`, and its
`dst` endpoint is a node satisfying the node condition, the `dst`
endpoint is in `T` as well. -/
def closedUnder (st : Store) (ncond : NodeRow → Bool) (econd : EdgeRow → Bool)
    (src dst : EdgeRow → Nat) (T : Finset Nat) : Prop :=
  ∀ e ∈ st.edges, econd e = true → src e ∈ T →
    (∃ n ∈ st.nodes, n.id = dst e ∧ ncond n = true) → dst e ∈ T

theorem travStepG_extensive (st : Store) (ncond : NodeRow → Bool)
    (econd : EdgeRow → Bool) (src dst : EdgeRow → Nat) (s : Finset Nat) :
    s ⊆ travStepG st ncond econd src dst s :=
  Finset.subset_union_left

theorem travStepG_bounded (st : Store) (ncond : NodeRow → Bool)
    (econd : EdgeRow → Bool) (src dst : EdgeRow → Nat) (s : Finset Nat) :
    travStepG st ncond econd src dst s ⊆ s ∪ nodeIds st := by
  intro x hx
  rw [travStepG, Finset.mem_union] at hx
  rcases hx with hx | hx
  · exact Finset.mem_union_left _ hx
  · rw [List.mem_toFinset, List.mem_map] at hx
    obtain ⟨e, he, rfl⟩ := hx
    rw [List.mem_filter, Bool.and_eq_true, Bool.and_eq_true] at he
    obtain ⟨-, hany⟩ := he.2
    rw [List.any_eq_true] at hany
    obtain ⟨n, hn, hcond⟩ := hany
    rw [Bool.and_eq_true, beq_iff_eq] at hcond
    apply Finset.mem_union_right
    rw [nodeIds, List.mem_toFinset, List.mem_map]
    exact ⟨n, hn, hcond.1⟩

theorem travStepG_closed_of_fixed (st : Store) (ncond : NodeRow → Bool)
    (econd : EdgeRow → Bool) (src dst : EdgeRow → Nat) (T : Finset Nat)
    (hfix : travStepG st ncond econd src dst T = T) :
    closedUnder st ncond econd src dst T := by
  intro e he hec hsrc hdst
  rw [← hfix, travStepG]
  apply Finset.mem_union_right
  rw [List.mem_toFinset, List.mem_map]
  refine ⟨e, ?_, rfl⟩
  rw [List.mem_filter, Bool.and_eq_true, Bool.and_eq_true]
  obtain ⟨n, hn, hnid, hnc⟩ := hdst
  refine ⟨he, ⟨⟨hec, by simpa using hsrc⟩, ?_⟩⟩
  rw [List.any_eq_true]
  exact ⟨n, hn, by rw [Bool.and_eq_true, beq_iff_eq]; exact ⟨hnid, hnc⟩⟩

theorem travStepG_subset_of_closed (st : Store) (ncond : NodeRow → Bool)
    (econd : EdgeRow → Bool) (src dst : EdgeRow → Nat) (s U : Finset Nat)
    (hsU : s ⊆ U) (hcl : closedUnder st ncond econd src dst U) :
    travStepG st ncond econd src dst s ⊆ U := by
  intro x hx
  rw [travStepG, Finset.mem_union] at hx
  rcases hx with hx | hx
  · exact hsU hx
  · rw [List.mem_toFinset, List.mem_map] at hx
    obtain ⟨e, he, rfl⟩ := hx
    rw [List.mem_filter, Bool.and_eq_true, Bool.and_eq_true] at he
    obtain ⟨he1, ⟨hec, hsrc⟩, hany⟩ := he
    rw [List.any_eq_true] at hany
    obtain ⟨n, hn, hcond⟩ := hany
    rw [Bool.and_eq_true, beq_iff_eq] at hcond
    exact hcl e he1 hec (hsU (by simpa using hsrc)) ⟨n, hn, hcond.1, hcond.2⟩

theorem iterStep_extensive (f : Finset Nat → Finset Nat)
    (hext : ∀ s, s ⊆ f s) : ∀ (n : Nat) (s : Finset Nat), s ⊆ iterStep f n s
  | 0, s => by rw [iterStep]
  | n + 1, s => by
    rw [iterStep]
    exact (hext s).trans (iterStep_extensive f hext n (f s))

theorem iterStep_of_fixed (f : Finset Nat → Finset Nat) :
    ∀ (n : Nat) (s : Finset Nat), f s = s → iterStep f n s = s
  | 0, s, _ => by rw [iterStep]
  | n + 1, s, h => by
    rw [iterStep, h]
    exact iterStep_of_fixed f n s h

theorem iterStep_subset_of_closed (f : Finset Nat → Finset Nat) (U : Finset Nat)
    (hcl : ∀ s, s ⊆ U → f s ⊆ U) :
    ∀ (n : Nat) (s : Finset Nat), s ⊆ U → iterStep f n s ⊆ U
  | 0, s, hs => by rw [iterStep]; exact hs
  | n + 1, s, hs => by
    rw [iterStep]
    exact iterStep_subset_of_closed f U hcl n (f s) (hcl s hs)

theorem iterStep_reaches_fix (f : Finset Nat → Finset Nat) (B : Finset Nat)
    (hext : ∀ s, s ⊆ f s) (hbnd : ∀ s, f s ⊆ s ∪ B) :
    ∀ (n : Nat) (s : Finset Nat), (s ∪ B).card ≤ n + s.card →
      f (iterStep f n s) = iterStep f n s
  | 0, s, hcard => by
    rw [iterStep]
    have hBs : s ∪ B = s :=
      (Finset.eq_of_subset_of_card_le
        (Finset.subset_union_left : s ⊆ s ∪ B) (by omega)).symm
    exact Finset.Subset.antisymm ((hbnd s).trans (le_of_eq hBs)) (hext s)
  | n + 1, s, hcard => by
    rw [iterStep]
    by_cases hf : f s = s
    · rw [hf, iterStep_of_fixed f n s hf, hf]
    · have hss : s ⊂ f s := (hext s).ssubset_of_ne fun h => hf h.symm
      have hlt : s.card < (f s).card := Finset.card_lt_card hss
      have hsub : f s ∪ B ⊆ s ∪ B :=
        Finset.union_subset (hbnd s) Finset.subset_union_right
      exact iterStep_reaches_fix f B hext hbnd n (f s)
        (le_trans (Finset.card_le_card hsub) (by omega))

theorem travG_least_fixed_point (st : Store) (ncond : NodeRow → Bool)
    (econd : EdgeRow → Bool) (src dst : EdgeRow → Nat) (seed : Finset Nat)
    (hseed : seed ⊆ nodeIds st) :
    seed ⊆ iterStep (travStepG st ncond econd src dst)
        (seed ∪ nodeIds st).card seed ∩ nodeIds st ∧
      closedUnder st ncond econd src dst
        (iterStep (travStepG st ncond econd src dst)
          (seed ∪ nodeIds st).card seed ∩ nodeIds st) ∧
      ∀ U : Finset Nat, seed ⊆ U → closedUnder st ncond econd src dst U →
        iterStep (travStepG st ncond econd src dst)
          (seed ∪ nodeIds st).card seed ∩ nodeIds st ⊆ U := by
  have hext := travStepG_extensive st ncond econd src dst
  have hbnd := travStepG_bounded st ncond econd src dst
  have hT0sub : iterStep (travStepG st ncond econd src dst)
      (seed ∪ nodeIds st).card seed ⊆ nodeIds st := by
    apply iterStep_subset_of_closed _ (nodeIds st) _ _ seed hseed
    intro s hs
    exact (hbnd s).trans (Finset.union_subset hs (Finset.Subset.refl _))
  have hT : iterStep (travStepG st ncond econd src dst)
      (seed ∪ nodeIds st).card seed ∩ nodeIds st =
        iterStep (travStepG st ncond econd src dst)
          (seed ∪ nodeIds st).card seed :=
    Finset.inter_eq_left.mpr hT0sub
  have hfix : travStepG st ncond econd src dst
      (iterStep (travStepG st ncond econd src dst)
        (seed ∪ nodeIds st).card seed) =
      iterStep (travStepG st ncond econd src dst)
        (seed ∪ nodeIds st).card seed := by
    apply iterStep_reaches_fix _ (nodeIds st) hext hbnd
    omega
  refine ⟨?_, ?_, ?_⟩
  · rw [hT]
    exact iterStep_extensive _ hext _ seed
  · rw [hT]
    exact travStepG_closed_of_fixed st ncond econd src dst _ hfix
  · intro U hseedU hclU
    rw [hT]
    apply iterStep_subset_of_closed _ U _ _ seed hseedU
    intro s hs
    exact travStepG_subset_of_closed st ncond econd src dst s U hs hclU

/-- Claim C4: for every seed id set drawn from the vertex table,
`traverse` returns exactly the least fixed point containing the seed's
ids and closed under adding the target of any condition-satisfying
edge whose source is already present and whose target is a
condition-satisfying vertex; `r_traverse` computes the mirror-image
fixed point following edges backwards.  Cycles are absorbed because
the result is a set.  On the concrete graph with edges 1 → 2 → 3 and
4 → 5, `traverse` from seed 1 yields 1, 2, 3; after adding the edge
2 → 4 it yields 1 through 5, and `r_traverse` from seed 5 on the
updated graph yields 1, 2, 4, 5. -/
theorem C4_traverse_least_fixed_point (st : Store) (ncond : NodeRow → Bool)
    (econd : EdgeRow → Bool) (seed : Finset Nat) (hseed : seed ⊆ nodeIds st) :
    (seed ⊆ traverse st ncond econd seed ∧
      closedUnder st ncond econd EdgeRow.source EdgeRow.target
        (traverse st ncond econd seed) ∧
      ∀ U : Finset Nat, seed ⊆ U →
        closedUnder st ncond econd EdgeRow.source EdgeRow.target U →
        traverse st ncond econd seed ⊆ U) ∧
    (seed ⊆ r_traverse st ncond econd seed ∧
      closedUnder st ncond econd EdgeRow.target EdgeRow.source
        (r_traverse st ncond econd seed) ∧
      ∀ U : Finset Nat, seed ⊆ U →
        closedUnder st ncond econd EdgeRow.target EdgeRow.source U →
        r_traverse st ncond econd seed ⊆ U) ∧
    (traverse ⟨[⟨1, "", []⟩, ⟨2, "", []⟩, ⟨3, "", []⟩, ⟨4, "", []⟩, ⟨5, "", []⟩],
        [⟨1, 1, 2, "", []⟩, ⟨2, 2, 3, "", []⟩, ⟨3, 4, 5, "", []⟩]⟩
        (fun _ => true) (fun _ => true) {1} = {1, 2, 3} ∧
      traverse ⟨[⟨1, "", []⟩, ⟨2, "", []⟩, ⟨3, "", []⟩, ⟨4, "", []⟩, ⟨5, "", []⟩],
        [⟨1, 1, 2, "", []⟩, ⟨2, 2, 3, "", []⟩, ⟨3, 4, 5, "", []⟩, ⟨4, 2, 4, "", []⟩]⟩
        (fun _ => true) (fun _ => true) {1} = {1, 2, 3, 4, 5} ∧
      r_traverse ⟨[⟨1, "", []⟩, ⟨2, "", []⟩, ⟨3, "", []⟩, ⟨4, "", []⟩, ⟨5, "", []⟩],
        [⟨1, 1, 2, "", []⟩, ⟨2, 2, 3, "", []⟩, ⟨3, 4, 5, "", []⟩, ⟨4, 2, 4, "", []⟩]⟩
        (fun _ => true) (fun _ => true) {5} = {1, 2, 4, 5}) := by
  refine ⟨?_, ?_, by decide, by decide, by decide⟩
  · exact travG_least_fixed_point st ncond econd EdgeRow.source EdgeRow.target
      seed hseed
  · exact travG_least_fixed_point st ncond econd EdgeRow.target EdgeRow.source
      seed hseed

set_option maxRecDepth 8000 in
/-- Witness for `C4_traverse_least_fixed_point`: seed 1 over the
five-node path-pair graph is a subset of the node ids. -/
theorem C4_traverse_least_fixed_point_witness :
    (({1} : Finset Nat) ⊆ nodeIds
        ⟨[⟨1, "", []⟩, ⟨2, "", []⟩, ⟨3, "", []⟩, ⟨4, "", []⟩, ⟨5, "", []⟩],
          [⟨1, 1, 2, "", []⟩, ⟨2, 2, 3, "", []⟩, ⟨3, 4, 5, "", []⟩]⟩) ∧
      ({1} : Finset Nat) ⊆ traverse
        ⟨[⟨1, "", []⟩, ⟨2, "", []⟩, ⟨3, "", []⟩, ⟨4, "", []⟩, ⟨5, "", []⟩],
          [⟨1, 1, 2, "", []⟩, ⟨2, 2, 3, "", []⟩, ⟨3, 4, 5, "", []⟩]⟩
        (fun _ => true) (fun _ => true) {1} :=
  ⟨by decide,
    (C4_traverse_least_fixed_point
      ⟨[⟨1, "", []⟩, ⟨2, "", []⟩, ⟨3, "", []⟩, ⟨4, "", []⟩, ⟨5, "", []⟩],
        [⟨1, 1, 2, "", []⟩, ⟨2, 2, 3, "", []⟩, ⟨3, 4, 5, "", []⟩]⟩
      (fun _ => true) (fun _ => true) {1} (by decide)).1.1⟩

/-!
`GQL::Result` and `merge_rows`.  A result is a list of rows (lists of
text cells) plus parallel column headers.  `merge_rows` first reads
`other`'s id column, then for each row of `self` records the position
of the first matching id in `other` (`std::distance` of a failed
`std::find` yields the column's length), and finally, for every column
of `other` not already among the accumulated headers, appends that
column's cell at the recorded position to each row — where `.at` on an
out-of-range position is the only point that faults on an unmatched
id.
-/

/-- A materialized query result. -/
structure Result where
  body : List (List String)
  headers : List String
deriving DecidableEq

/-- Column access `Result::operator[](std::string)`: an empty result
returns an empty column without consulting the headers; otherwise a
missing header is fatal (`index_of` throws), and a present header
yields each row's cell at its index.  (Cells of rows shorter than the
header index — impossible for backend-produced results — default to
the empty string.) -/
def Result.col (r : Result) (c : String) : Option (List String) :=
  if r.body.isEmpty then some []
  else
    match r.headers.findIdx? fun h => h == c with
    | none => none
    | some ind => some (r.body.map fun row => row.getD ind "")

/-- The per-row appending loop of `merge_rows` for one column:
`body[i].push_back(col_vals.at(to_other[i]))`, where `.at` throws on
an out-of-range index. -/
def appendCells (vals : List String) :
    List (List String) → List Nat → Option (List (List String))
  | [], _ => some []
  | _ :: _, [] => none
  | row :: rows, j :: js =>
    match vals.get? j with
    | none => none
    | some v =>
      match appendCells vals rows js with
      | none => none
      | some rs => some ((row ++ [v]) :: rs)

/-- The column loop of `merge_rows`: skip columns already present,
append the rest. -/
def mergeCols (other : Result) (to_other : List Nat) :
    List String → Result → Option Result
  | [], acc => some acc
  | c :: cs, acc =>
    if acc.headers.contains c then mergeCols other to_other cs acc
    else
      match other.col c with
      | none => none
      | some col_vals =>
        match appendCells col_vals acc.body to_other with
        | none => none
        | some body2 =>
          mergeCols other to_other cs ⟨body2, acc.headers ++ [c]⟩

/-- `Result::merge_rows`. -/
def merge_rows (self other : Result) : Option Result :=
  match other.col "id" with
  | none => none
  | some other_ids =>
    match self.col "id" with
    | none => none
    | some self_ids =>
      mergeCols other (self_ids.map fun v => other_ids.indexOf v)
        other.headers self

/-- The columns of `other` a merge appends: those not already among
`self`'s headers. -/
def mergeNewCols (selfHeaders otherHeaders : List String) : List String :=
  otherHeaders.filter fun c => !selfHeaders.contains c

/-- The cell of `other` at row position `j`, column `c`. -/
def mergeCellAt (other : Result) (j : Nat) (c : String) : String :=
  (other.body.getD j []).getD
    ((other.headers.findIdx? fun h => h == c).getD 0) ""

/-- The merged result a successful `merge_rows` produces, described
row-wise: each row of `self`, extended by the cells of `other`'s new
columns taken from the row of `other` matching on id. -/
def mergeRowsSpec (self other : Result) : Result :=
  { headers := self.headers ++ mergeNewCols self.headers other.headers,
    body := (self.body.zip (((self.col "id").getD []).map fun v =>
        ((other.col "id").getD []).indexOf v)).map fun p =>
      p.1 ++ (mergeNewCols self.headers other.headers).map fun c =>
        mergeCellAt other p.2 c }

theorem getD_map_of_lt {α β : Type} (f : α → β) (l : List α) (j : Nat) (d : β)
    (d2 : α) (h : j < l.length) : (l.map f).getD j d = f (l.getD j d2) := by
  rw [List.getD_eq_getElem?_getD, List.getD_eq_getElem?_getD, List.getElem?_map,
    List.getElem?_eq_getElem h]
  simp

theorem col_spec (r : Result) (c : String) (hc : c ∈ r.headers) :
    ∃ vals : List String, r.col c = some vals ∧
      vals.length = r.body.length ∧
      ∀ j : Nat, j < r.body.length → vals.getD j "" = mergeCellAt r j c := by
  unfold Result.col
  by_cases hb : r.body.isEmpty
  · rw [if_pos hb]
    rw [List.isEmpty_iff] at hb
    exact ⟨[], rfl, by simp [hb], fun j hj => by rw [hb] at hj; exact absurd hj (by simp)⟩
  · rw [if_neg hb]
    cases hf : r.headers.findIdx? fun h => h == c with
    | none =>
      rw [List.findIdx?_eq_none_iff] at hf
      have := hf c hc
      simp at this
    | some ind =>
      refine ⟨_, rfl, by simp, ?_⟩
      intro j hj
      rw [getD_map_of_lt _ _ _ _ [] hj, mergeCellAt, hf]
      simp

theorem appendCells_eq (vals : List String) :
    ∀ (rows : List (List String)) (js : List Nat), rows.length = js.length →
      (∀ j ∈ js, j < vals.length) →
      appendCells vals rows js =
        some ((rows.zip js).map fun p => p.1 ++ [vals.getD p.2 ""])
  | [], js, _, _ => by simp [appendCells]
  | r :: rows, [], hlen, _ => by simp at hlen
  | r :: rows, j :: js, hlen, hjs => by
    rw [appendCells]
    have hj : j < vals.length := hjs j (by simp)
    have hv : vals.get? j = some (vals.getD j "") := by
      rw [List.getD_eq_getElem?_getD, List.get?_eq_getElem?,
        List.getElem?_eq_getElem hj]
      simp
    rw [hv, appendCells_eq vals rows js (by simpa using hlen)
      fun x hx => hjs x (by simp [hx])]
    simp

theorem appendCells_none (vals : List String) :
    ∀ (rows : List (List String)) (js : List Nat), rows.length = js.length →
      (∃ j ∈ js, vals.length ≤ j) →
      appendCells vals rows js = none
  | rows, [], _, hbad => by simp at hbad
  | [], j :: js, hlen, _ => by simp at hlen
  | r :: rows, j :: js, hlen, hbad => by
    rw [appendCells]
    by_cases hj : vals.length ≤ j
    · rw [List.get?_eq_none.mpr hj]
    · cases hv : vals.get? j with
      | none => rfl
      | some v =>
        obtain ⟨j2, hj2, hge⟩ := hbad
        rcases List.mem_cons.mp hj2 with rfl | hj2
        · exact absurd hge hj
        · rw [appendCells_none vals rows js (by simpa using hlen) ⟨j2, hj2, hge⟩]

theorem zip_map_self {α β γ : Type} (g : α × β → γ) :
    ∀ (b : List α) (t : List β), b.length = t.length →
      ((b.zip t).map g).zip t = (b.zip t).map fun p => (g p, p.2)
  | [], _, _ => by simp
  | a :: b, [], hlen => by simp at hlen
  | a :: b, x :: t, hlen => by
    simp only [List.zip_cons_cons, List.map_cons]
    rw [zip_map_self g b t (by simpa using hlen)]

theorem mergeCols_eq (other : Result) (to_other : List Nat)
    (hto : ∀ j ∈ to_other, j < other.body.length) :
    ∀ (cs : List String) (acc : Result), cs.Nodup →
      (∀ c ∈ cs, c ∈ other.headers) →
      acc.body.length = to_other.length →
      mergeCols other to_other cs acc = some
        { headers := acc.headers ++ (cs.filter fun c => !acc.headers.contains c),
          body := (acc.body.zip to_other).map fun p =>
            p.1 ++ (cs.filter fun c => !acc.headers.contains c).map fun c =>
              mergeCellAt other p.2 c }
  | [], acc, _, _, hlen => by
    rw [mergeCols]
    refine congrArg some ?_
    cases acc with
    | mk b h =>
      simp only [List.filter_nil, List.append_nil, List.map_nil, Result.mk.injEq]
      refine ⟨?_, trivial⟩
      exact (List.map_fst_zip b to_other (le_of_eq hlen)).symm
  | c :: cs, acc, hnd, hmem, hlen => by
    obtain ⟨hcn, hnd2⟩ := List.nodup_cons.mp hnd
    rw [mergeCols]
    by_cases hc : acc.headers.contains c
    · rw [if_pos hc]
      rw [mergeCols_eq other to_other hto cs acc hnd2
        (fun x hx => hmem x (List.mem_cons_of_mem _ hx)) hlen]
      have hcm : c ∈ acc.headers := by simpa using hc
      have hfil : (c :: cs).filter (fun x => !acc.headers.contains x) =
          cs.filter fun x => !acc.headers.contains x := by
        rw [List.filter_cons]
        simp [hcm]
      rw [hfil]
    · rw [if_neg hc]
      obtain ⟨vals, hv, hvl, hvc⟩ := col_spec other c (hmem c (List.mem_cons_self c cs))
      simp only [hv]
      simp only [appendCells_eq vals acc.body to_other hlen
        (fun j hj => by rw [hvl]; exact hto j hj)]
      have hlen2 : ((acc.body.zip to_other).map fun p =>
          p.1 ++ [vals.getD p.2 ""]).length = to_other.length := by
        rw [List.length_map, List.length_zip, hlen]
        exact Nat.min_self _
      rw [mergeCols_eq other to_other hto cs ⟨_, acc.headers ++ [c]⟩ hnd2
        (fun x hx => hmem x (List.mem_cons_of_mem _ hx)) hlen2]
      refine congrArg some ?_
      have hfil2 : cs.filter (fun x => !(acc.headers ++ [c]).contains x) =
          cs.filter fun x => !acc.headers.contains x := by
        apply List.filter_congr
        intro x hx
        have hxc : x ≠ c := fun h => hcn (h ▸ hx)
        simp [hxc]
      have hcm2 : c ∉ acc.headers := by simpa using hc
      have hfilc : (c :: cs).filter (fun x => !acc.headers.contains x) =
          c :: cs.filter fun x => !acc.headers.contains x := by
        rw [List.filter_cons]
        simp [hcm2]
      refine congr (congrArg Result.mk ?_) ?_
      · rw [zip_map_self _ acc.body to_other hlen, List.map_map]
        rw [hfil2, hfilc]
        apply List.map_congr_left
        intro p hp
        have hp2 : p.2 ∈ to_other := (List.of_mem_zip hp).2
        simp only [Function.comp]
        rw [List.map_cons, List.append_assoc]
        rw [hvc p.2 (hto p.2 hp2)]
        rfl
      · rw [hfil2, hfilc, List.append_assoc]
        rfl

theorem mergeCols_none (other : Result) (to_other : List Nat)
    (hbad : ∃ j ∈ to_other, other.body.length ≤ j) :
    ∀ (cs : List String) (acc : Result),
      (∀ c ∈ cs, c ∈ other.headers) →
      acc.body.length = to_other.length →
      (∃ c ∈ cs, acc.headers.contains c = false) →
      mergeCols other to_other cs acc = none
  | [], _, _, _, hex => by simp at hex
  | c :: cs, acc, hmem, hlen, hex => by
    rw [mergeCols]
    by_cases hc : acc.headers.contains c
    · rw [if_pos hc]
      obtain ⟨x, hx, hxc⟩ := hex
      rcases List.mem_cons.mp hx with rfl | hx2
      · rw [hc] at hxc
        exact absurd hxc (by simp)
      · exact mergeCols_none other to_other hbad cs acc
          (fun y hy => hmem y (List.mem_cons_of_mem _ hy)) hlen ⟨x, hx2, hxc⟩
    · rw [if_neg hc]
      obtain ⟨vals, hv, hvl, -⟩ := col_spec other c (hmem c (List.mem_cons_self c cs))
      simp only [hv]
      obtain ⟨j, hj, hge⟩ := hbad
      simp only [appendCells_none vals acc.body to_other hlen
        ⟨j, hj, by rw [hvl]; exact hge⟩]

/-- Counterexample to claim C7: `self` holds id 1, `other` holds only
id 2, so self's id has no counterpart in other — yet `merge_rows`
completes without error, because `other` contributes no column beyond
those already in `self` and the out-of-range row position is never
dereferenced.  The call is a silent no-op, not a fatal error. -/
theorem C7_unmatched_id_not_fatal :
    ((⟨[["1"]], ["id"]⟩ : Result).col "id" = some ["1"] ∧
      (⟨[["2"]], ["id"]⟩ : Result).col "id" = some ["2"] ∧
      ("1" : String) ∉ ["2"]) ∧
      merge_rows ⟨[["1"]], ["id"]⟩ ⟨[["2"]], ["id"]⟩ = some ⟨[["1"]], ["id"]⟩ := by
  exact ⟨⟨by decide, by decide, by decide⟩, by decide⟩

/-- Claim C7 (amended): for Results `self` and `other` carrying id
columns (with `other`'s headers distinct): if every id cell of `self`
has exactly one matching id in `other`, `merge_rows` succeeds and
appends to each row of `self` the cells of `other`'s columns not
already present in `self`, matched by id; if some id of `self` has no
counterpart in `other` **and** `other` has at least one column not
already present in `self`, the call fails fatally.  (When `other`
brings no new column, an unmatched id is silently ignored.) -/
theorem C7_merge_rows_strict (self other : Result)
    (hid_self : "id" ∈ self.headers) (hid_other : "id" ∈ other.headers)
    (hnodup : other.headers.Nodup) :
    ((∀ v ∈ (self.col "id").getD [], ((other.col "id").getD []).count v = 1) →
      merge_rows self other = some (mergeRowsSpec self other)) ∧
    ((∃ v ∈ (self.col "id").getD [], v ∉ (other.col "id").getD []) →
      (∃ c ∈ other.headers, self.headers.contains c = false) →
      merge_rows self other = none) := by
  obtain ⟨oIds, hop, holen, -⟩ := col_spec other "id" hid_other
  obtain ⟨sIds, hsp, hslen, -⟩ := col_spec self "id" hid_self
  simp only [merge_rows, hop, hsp, Option.getD_some]
  constructor
  · intro hcount
    have hto : ∀ j ∈ sIds.map fun v => oIds.indexOf v, j < other.body.length := by
      intro j hj
      rw [List.mem_map] at hj
      obtain ⟨v, hv, rfl⟩ := hj
      have hmem : v ∈ oIds := List.count_pos_iff.mp (by rw [hcount v hv]; omega)
      rw [← holen]
      exact List.indexOf_lt_length.mpr hmem
    rw [mergeCols_eq other _ hto other.headers self hnodup (fun c hc => hc)
      (by rw [List.length_map, hslen])]
    unfold mergeRowsSpec mergeNewCols
    rw [hop, hsp]
    rfl
  · intro hun hnew
    obtain ⟨v, hv, hnv⟩ := hun
    refine mergeCols_none other _ ⟨oIds.indexOf v, List.mem_map.mpr ⟨v, hv, rfl⟩, ?_⟩
      other.headers self (fun c hc => hc) (by rw [List.length_map, hslen]) hnew
    rw [List.indexOf_eq_length.mpr hnv]
    exact le_of_eq holen.symm

/-- Witness for `C7_merge_rows_strict`: a one-row `self` with columns
id, x and a one-row `other` with columns id, y sharing id 1 merge into
a single row with columns id, x, y. -/
theorem C7_merge_rows_strict_witness :
    (("id" ∈ (⟨[["1", "a"]], ["id", "x"]⟩ : Result).headers) ∧
      ("id" ∈ (⟨[["1", "b"]], ["id", "y"]⟩ : Result).headers) ∧
      (⟨[["1", "b"]], ["id", "y"]⟩ : Result).headers.Nodup ∧
      (∀ v ∈ ((⟨[["1", "a"]], ["id", "x"]⟩ : Result).col "id").getD [],
        (((⟨[["1", "b"]], ["id", "y"]⟩ : Result).col "id").getD []).count v = 1)) ∧
      merge_rows ⟨[["1", "a"]], ["id", "x"]⟩ ⟨[["1", "b"]], ["id", "y"]⟩ =
        some (mergeRowsSpec ⟨[["1", "a"]], ["id", "x"]⟩ ⟨[["1", "b"]], ["id", "y"]⟩) := by
  refine ⟨⟨by decide, by decide, by decide, by decide⟩, ?_⟩
  exact (C7_merge_rows_strict ⟨[["1", "a"]], ["id", "x"]⟩ ⟨[["1", "b"]], ["id", "y"]⟩
    (by decide) (by decide) (by decide)).1 (by decide)

/-!
Edge creation.  The schema declares
`FOREIGN KEY(source) REFERENCES nodes(id)` and
`FOREIGN KEY(target) REFERENCES nodes(id)`, but SQLite leaves
foreign-key enforcement off by default and the program never issues
`PRAGMA foreign_keys = ON` — so, as the backend is actually
configured, only the `PRIMARY KEY(id)` uniqueness constraint aborts an
insertion; dangling endpoints are accepted.
-/

/-- `INSERT INTO edges ...` under the program's connection settings:
duplicate ids abort (uniqueness enforced), dangling endpoints do not
(declared foreign keys unenforced). -/
def insertEdgeRow (st : Store) (e : EdgeRow) : Option Store :=
  if st.edges.any fun x => x.id == e.id then none
  else some { st with edges := st.edges ++ [e] }

/-- `INSERT INTO nodes (id, tags) VALUES (<id>, json(...))`:
duplicate ids abort via the primary key. -/
def insertNodeRow (st : Store) (n : NodeRow) : Option Store :=
  if st.nodes.any fun x => x.id == n.id then none
  else some { st with nodes := st.nodes ++ [n] }

/-- `GQL::add_edge(source, target)`: insert one edge row under the
next automatic edge id and return the Selection `e("id = <id>")`; a
constraint failure is a thrown backend error (`none`) that leaves the
edges relation unchanged. -/
def add_edge (s : SessionState) (src tgt : Nat) : Option (SessionState × EQuery) :=
  match insertEdgeRow s.store ⟨s.next_edge_id, src, tgt, "", []⟩ with
  | none => none
  | some st2 =>
    some ({ s with
        store := st2
        sql_call_counter := s.sql_call_counter + 1
        next_edge_id := s.next_edge_id + 1 },
      EQuery.whereId s.next_edge_id)

/-- Claim C6 evaluated on the code at its failing input: on an empty
store, ids 1 and 2 reference no existing vertex, yet
`add_edge(1, 2)` succeeds and stores the dangling edge — the declared
foreign keys are never enforced because the program does not enable
them.  Only the duplicate-id half of the claim holds: re-inserting
edge id 1 (or node id 1) aborts with the relation unchanged. -/
theorem C6_dangling_edge_insert_succeeds :
    ((1 : Nat) ∉ nodeIds ⟨[], []⟩ ∧ (2 : Nat) ∉ nodeIds ⟨[], []⟩) ∧
      add_edge ⟨⟨[], []⟩, 0, 1, 1⟩ 1 2 =
        some (⟨⟨[], [⟨1, 1, 2, "", []⟩]⟩, 1, 1, 2⟩, EQuery.whereId 1) ∧
      insertEdgeRow ⟨[], [⟨1, 1, 2, "", []⟩]⟩ ⟨1, 5, 5, "", []⟩ = none ∧
      insertNodeRow ⟨[⟨1, "", []⟩], []⟩ ⟨1, "", []⟩ = none := by
  exact ⟨⟨by decide, by decide⟩, by decide, by decide, by decide⟩

end GQLSpec
